import Mathlib

/-!
Verification development for the IWM stock-analysis repository.

The relevant Python modules are embedded shallowly:
* `utils/sentiment_analyzer.py` — news-sentiment aggregation;
* `utils/ai_strategy_analyzer.py` — the strategy confidence score;
* `utils/options_analyzer.py` — strike selection, validation, risk/reward;
* `pages/options_strategy.py` — the payoff evaluator for bull call spreads;
* `utils/price_factors_analyzer.py` — RSI and the volatility-regime classifier.

Machine floats in the source are modelled over `ℚ` (and `ℝ` where square
roots occur).  Where the Python code relies on IEEE-754 special values
(`inf`/`NaN` arising from division by zero in numpy/pandas expressions),
the embedding makes that branch explicit; each such spot is commented.
-/

namespace IWM

/-! ### Sentiment aggregation (`utils/sentiment_analyzer.py`, `analyze_news_sentiment`)

The polarity of a title is produced by an external lexical scorer (TextBlob
in the source); it is passed in as the function `pol`.  The source walks the
article list accumulating `positive_count` / `negative_count` and finally
takes `sum(scores)/len(scores) if sentiment_scores else 0`. -/

structure SentimentResult where
  score : ℚ
  positiveCount : ℕ
  negativeCount : ℕ
deriving DecidableEq

def analyze_news_sentiment (pol : String → ℚ) (titles : List String) : SentimentResult :=
  let scores := titles.map pol
  { score := if scores.length = 0 then 0 else scores.sum / scores.length
    positiveCount := (scores.filter (fun s => decide (0 < s))).length
    negativeCount := (scores.filter (fun s => decide (s < 0))).length }

/-! ### Strategy confidence score (`utils/ai_strategy_analyzer.py`,
`get_strategy_confidence_score`)

The Python function reads an untyped `market_data` dict, with defaults for
missing keys (`rsi` defaults to 50, `weekly_score` to 0, `positive_ratio`
to 0.5, `analyst_rating` to the empty string).  `MarketData` records the
values after those `get` defaults.  `errorOrEmpty` models
`not market_data or 'error' in market_data`; `hasAiRec` models the
truthiness test on `ai_recommendation`; `aiStrategy` is
`ai_recommendation.get('strategy')`. -/

/-- `listPre a b` : the char list `a` is an initial segment of `b`. -/
def listPre : List Char → List Char → Bool
  | [], _ => true
  | _ :: _, [] => false
  | a :: as, b :: bs => a = b && listPre as bs

/-- Substring containment on char lists; models Python's `needle in haystack`. -/
def containsSub (needle : List Char) : List Char → Bool
  | [] => listPre needle []
  | c :: cs => listPre needle (c :: cs) || containsSub needle cs

/-- Python's two-argument `min` on rationals. -/
def qmin (a b : ℚ) : ℚ := if a ≤ b then a else b

/-- Python's two-argument `max` on rationals. -/
def qmax (a b : ℚ) : ℚ := if a ≤ b then b else a

structure MarketData where
  errorOrEmpty : Bool
  rsi : ℚ
  weeklyScore : ℚ
  positiveFrac : ℚ
  analystRating : String
  hasAiRec : Bool
  aiStrategy : Option String

def get_strategy_confidence_score (md : MarketData) : ℚ :=
  if md.errorOrEmpty then 50
  else if !md.hasAiRec then 50
  else
    let bullish := md.aiStrategy == some "Bullish"
    -- weights = {'technical': 0.3, 'sentiment': 0.4, 'analyst': 0.3}
    let s1 : ℚ :=
      if 70 < md.rsi then (3/10) * (if bullish then -1 else 1)
      else if md.rsi < 30 then (3/10) * (if bullish then 1 else -1)
      else 0
    let s2 : ℚ :=
      if 0 < md.weeklyScore ∨ 3/5 < md.positiveFrac then (2/5) * (if bullish then 1 else -1)
      else if md.weeklyScore < 0 ∨ md.positiveFrac < 2/5 then (2/5) * (if bullish then -1 else 1)
      else 0
    let s3 : ℚ :=
      if containsSub "Buy".toList md.analystRating.toList then (3/10) * (if bullish then 1 else -1)
      else if containsSub "Sell".toList md.analystRating.toList then (3/10) * (if bullish then -1 else 1)
      else 0
    qmin (qmax ((s1 + s2 + s3 + 1) * 50) 0) 100

/-- Alignment sign of the technical (RSI) signal with the AI strategy. -/
def techAlign (md : MarketData) (bullish : Bool) : ℚ :=
  if 70 < md.rsi then (if bullish then -1 else 1)
  else if md.rsi < 30 then (if bullish then 1 else -1)
  else 0

/-- Alignment sign of the weekly news-sentiment signal with the AI strategy. -/
def sentAlign (md : MarketData) (bullish : Bool) : ℚ :=
  if 0 < md.weeklyScore ∨ 3/5 < md.positiveFrac then (if bullish then 1 else -1)
  else if md.weeklyScore < 0 ∨ md.positiveFrac < 2/5 then (if bullish then -1 else 1)
  else 0

/-- Alignment sign of the analyst-rating signal with the AI strategy. -/
def anaAlign (md : MarketData) (bullish : Bool) : ℚ :=
  if containsSub "Buy".toList md.analystRating.toList then (if bullish then 1 else -1)
  else if containsSub "Sell".toList md.analystRating.toList then (if bullish then -1 else 1)
  else 0

/-- Modelled from the spec: the Signal Fusion total
`0.4 * technical + 0.3 * sentiment + 0.3 * volatility` that §4.4 of the
specification attributes to the code.  Kept for comparison against
`get_strategy_confidence_score`; no function in the source computes it. -/
def specFusionTotal (t s v : ℚ) : ℚ := 2/5 * t + 3/10 * s + 3/10 * v

/-- Concrete `market_data` with an oversold RSI, neutral sentiment, no
analyst rating, and a bullish AI recommendation. -/
def mdEx : MarketData :=
  { errorOrEmpty := false, rsi := 20, weeklyScore := 0, positiveFrac := 1/2
    analystRating := "", hasAiRec := true, aiStrategy := some "Bullish" }

/-! ### Options strategy analyzer (`utils/options_analyzer.py`)

`analyze_options_strategy` derives `current_price` and annualized
`volatility` from the fetched price history and then walks the fetched
option chains; the embedding takes those three ingredients as arguments.
An option chain row carries the columns the code consults. -/

structure OptionRow where
  strike : ℚ
  volume : ℚ
  lastPrice : ℚ
  openInterest : ℚ
deriving DecidableEq

structure Chain where
  calls : List OptionRow
  puts : List OptionRow
deriving DecidableEq

/-- `argminAbsAux target best xs` : the element of `best :: xs` closest to
`target`, first occurrence winning — the semantics of
`series.iloc[(series - target).abs().argmin()]`. -/
def argminAbsAux (target : ℚ) : ℚ → List ℚ → ℚ
  | best, [] => best
  | best, x :: xs =>
    if |x - target| < |best - target| then argminAbsAux target x xs
    else argminAbsAux target best xs

/-- `find_nearest_strike`: filter rows by volume > 100, lastPrice > 0,
openInterest > 50, then take the strike nearest to the target
(`None` when no row survives the filter). -/
def find_nearest_strike (rows : List OptionRow) (target : ℚ) : Option ℚ :=
  match (rows.filter (fun r =>
      decide (100 < r.volume) && decide (0 < r.lastPrice) &&
      decide (50 < r.openInterest))).map OptionRow.strike with
  | [] => none
  | s :: ss => some (argminAbsAux target s ss)

/-- Python's `round(x, 2)`: round to 2 decimal places, ties to even. -/
def round2 (x : ℚ) : ℚ :=
  ((if 1/2 < x * 100 - ⌊x * 100⌋ then ⌊x * 100⌋ + 1
    else if x * 100 - ⌊x * 100⌋ < 1/2 then ⌊x * 100⌋
    else if ⌊x * 100⌋ % 2 = 0 then ⌊x * 100⌋
    else ⌊x * 100⌋ + 1 : ℤ) : ℚ) / 100

inductive StrategyType where
  | ironCondorType
  | bullCallSpread
  | bearPutSpread
deriving DecidableEq

/-- The per-variant leg set of a constructed strategy (`strategy['setup']`). -/
inductive Setup where
  | ironCondor (sellCall buyCall sellPut buyPut : ℚ)
  | bullCall (buyCall sellCall : ℚ)
deriving DecidableEq

def Setup.stype : Setup → StrategyType
  | .ironCondor _ _ _ _ => .ironCondorType
  | .bullCall _ _ => .bullCallSpread

structure Strategy where
  daysToExpiry : ℤ
  setup : Setup
  maxProfit : ℚ
  maxLoss : ℚ
deriving DecidableEq

/-- `validate_strike_prices`.  For the bull call leg the Python expression
`abs(buy - p)/p < 0.1` is evaluated on numpy floats, so `p = 0` yields
`inf`/`NaN` which compares `False`; the `p ≠ 0` conjunct makes that
explicit. -/
def validate_strike_prices (s : Strategy) (p : ℚ) : Bool :=
  match s.setup with
  | .ironCondor sc bc sp bp =>
    decide (bp < sp) && decide (sp < p) && decide (p < sc) && decide (sc < bc)
  | .bullCall b sl =>
    decide (b < sl) && decide (p ≠ 0) && decide (|b - p| / p < 1/10)

/-- One iteration of the per-expiry loop in `analyze_options_strategy`,
before validation.  `volatility > 0.2` selects the Iron Condor branch,
otherwise the Bull Call Spread branch.  The `≠ 0` guards model Python's
`if not all([...])`, where a strike of `0.0` is falsy like `None`. -/
def buildStrategy (p vol : ℚ) (days : ℤ) (chain : Chain) : Option Strategy :=
  if 1/5 < vol then
    match find_nearest_strike chain.calls (p * (102/100)),
        find_nearest_strike chain.calls (p * (104/100)),
        find_nearest_strike chain.puts (p * (98/100)),
        find_nearest_strike chain.puts (p * (96/100)) with
    | some sc, some bc, some sp, some bp =>
      if sc ≠ 0 ∧ bc ≠ 0 ∧ sp ≠ 0 ∧ bp ≠ 0 then
        some { daysToExpiry := days
               setup := .ironCondor sc bc sp bp
               maxProfit := round2 (qmin (bc - sc) (sp - bp) * (3/20))
               maxLoss := round2 (qmax (bc - sc) (sp - bp) * (17/20)) }
      else none
    | _, _, _, _ => none
  else
    match find_nearest_strike chain.calls (p * (99/100)),
        find_nearest_strike chain.calls (p * (102/100)) with
    | some b, some sl =>
      if b ≠ 0 ∧ sl ≠ 0 then
        some { daysToExpiry := days
               setup := .bullCall b sl
               maxProfit := round2 ((sl - b) * (3/5))
               maxLoss := round2 ((sl - b) * (2/5)) }
      else none
    | _, _ => none

/-- `analyze_options_strategy`: build one candidate per expiry, keep it only
when `validate_strike_prices` accepts it, and return the list sorted by
days to expiry. -/
def analyze_options_strategy (p vol : ℚ) (options : List (ℤ × Chain)) : List Strategy :=
  List.insertionSort (fun a b => a.daysToExpiry ≤ b.daysToExpiry)
    (options.filterMap (fun e =>
      match buildStrategy p vol e.1 e.2 with
      | some s => if validate_strike_prices s p then some s else none
      | none => none))

/-- The strike-ordering invariant that claim C3 states per variant. -/
def strikeInvariant (p : ℚ) : Setup → Prop
  | .ironCondor sc bc sp bp => bp < sp ∧ sp < p ∧ p < sc ∧ sc < bc
  | .bullCall b sl => b < sl

/-! ### Payoff evaluator (`pages/options_strategy.py`, payoff loop)

For a Bull Call Spread the page computes, per sampled price,
`-max_loss` when `price <= buy_strike`, `-max_loss + (price - buy_strike)`
when `price <= sell_strike`, and `max_profit` otherwise. -/

def bullCallPayoff (buyStrike sellStrike mp ml price : ℚ) : ℚ :=
  if price ≤ buyStrike then -ml
  else if price ≤ sellStrike then -ml + (price - buyStrike)
  else mp

/-- Modelled from the spec: the payoff map exactly as §4.6 words it
("below buy_strike", "between buy_strike and sell_strike",
"above sell_strike"); compared against `bullCallPayoff` from the page. -/
def specBullCallPayoff (buyStrike sellStrike mp ml price : ℚ) : ℚ :=
  if price < buyStrike then -ml
  else if price ≤ sellStrike then -ml + (price - buyStrike)
  else mp

/-! ### Concrete option-chain inputs used by counterexamples and witnesses -/

/-- A liquid option row (volume 200, last price 1, open interest 100) at a
given strike; it survives every filter in the analyzer. -/
def rowOf (k : ℚ) : OptionRow :=
  { strike := k, volume := 200, lastPrice := 1, openInterest := 100 }

def chainIC : Chain := { calls := [rowOf 102, rowOf 104], puts := [rowOf 98, rowOf 96] }

def icEx : Strategy :=
  { daysToExpiry := 7, setup := .ironCondor 102 104 98 96
    maxProfit := 3/10, maxLoss := 17/10 }

def chainBull : Chain := { calls := [rowOf 99, rowOf 102], puts := [rowOf 98] }

def bullEx : Strategy :=
  { daysToExpiry := 7, setup := .bullCall 99 102, maxProfit := 9/5, maxLoss := 6/5 }

def chainFine : Chain := { calls := [rowOf 100, rowOf (20501/200)], puts := [rowOf 98] }

def bullFine : Strategy :=
  { daysToExpiry := 7, setup := .bullCall 100 (20501/200), maxProfit := 3/2, maxLoss := 1 }

/-! ### RSI (`utils/price_factors_analyzer.py`, `analyze_price_factors`)

`delta = df['Close'].diff()` has NaN at index 0, but
`delta.where(delta > 0, 0)` replaces it by 0 (NaN > 0 is False), so the
gain/loss series start with 0 followed by the clipped consecutive
differences.  `gain.rolling(14).mean()` at the last index is the mean of
the last 14 entries, defined once the series has at least 14 entries.
`rs = gain/loss` and `rsi = 100 - 100/(1+rs)` are computed on floats:
`loss = 0 < gain` gives `rs = inf` and `rsi = 100`; `loss = gain = 0`
gives NaN.  `rsiLast` returns `none` exactly where pandas yields NaN. -/

def diffs : List ℚ → List ℚ
  | [] => []
  | [_] => []
  | a :: b :: t => (b - a) :: diffs (b :: t)

def gainSeries (l : List ℚ) : List ℚ :=
  match l with
  | [] => []
  | _ :: _ => 0 :: (diffs l).map (fun d => if 0 < d then d else 0)

def lossSeries (l : List ℚ) : List ℚ :=
  match l with
  | [] => []
  | _ :: _ => 0 :: (diffs l).map (fun d => if d < 0 then -d else 0)

def lastWindowMean (l : List ℚ) : Option ℚ :=
  if l.length < 14 then none else some ((l.drop (l.length - 14)).sum / 14)

def rsiLast (closes : List ℚ) : Option ℚ :=
  match lastWindowMean (gainSeries closes), lastWindowMean (lossSeries closes) with
  | some g, some l =>
    if l = 0 then (if g = 0 then none else some 100)
    else some (100 - 100 / (1 + g / l))
  | _, _ => none

/-! ### Volatility regime (`utils/price_factors_analyzer.py`,
`analyze_current_volatility_regime`)

`current_volatility = df['Close'].pct_change().std() * sqrt(252)` and
`rolling_vol = df['Close'].pct_change().rolling(window=20).std() * sqrt(252)`.
pandas `std` uses one delta degree of freedom, and with the default
`min_periods` the rolling series is defined exactly on complete 20-return
windows (the leading NaN of `pct_change` poisons the windows touching it);
`.min()`/`.max()` skip NaN.  The percentile is
`(current - rolling.min()) / (rolling.max() - rolling.min())`, with NO
clamping, and the regime is `High` if it is `> 0.7`, `Low` if `< 0.3`,
else `Normal`.  The float semantics of the division are made explicit in
`volRegime`: when `rolling.max() == rolling.min()` the division yields
`+inf` (numerator > 0, regime High), `-inf` (numerator < 0, regime Low)
or `NaN` (numerator 0, both comparisons False, regime Normal); when the
rolling series is all-NaN (too short a history) every comparison is
False and the regime is Normal. -/

def pctChange : List ℚ → List ℚ
  | [] => []
  | [_] => []
  | a :: b :: t => (b / a - 1) :: pctChange (b :: t)

/-- pandas `Series.std()`: sample variance with one delta degree of
freedom. -/
def sampleVar (l : List ℚ) : ℚ :=
  ((l.map (fun x => (x - l.sum / (l.length : ℚ)) ^ 2)).sum) / ((l.length : ℚ) - 1)

/-- The complete trailing windows of length 20, oldest first — the points
where `rolling(window=20)` is defined. -/
def windows20 (l : List ℚ) : List (List ℚ) :=
  (List.range (l.length + 1 - 20)).map (fun i => (l.drop i).take 20)

/-- `std() * np.sqrt(252)` of a return series. -/
noncomputable def annVol (l : List ℚ) : ℝ :=
  Real.sqrt ((sampleVar l : ℚ) : ℝ) * Real.sqrt 252

noncomputable def rollingVols (closes : List ℚ) : List ℝ :=
  (windows20 (pctChange closes)).map (fun w => annVol w)

noncomputable def currentVol (closes : List ℚ) : ℝ := annVol (pctChange closes)

noncomputable def listMin : List ℝ → ℝ
  | [] => 0
  | x :: xs => xs.foldl min x

noncomputable def listMax : List ℝ → ℝ
  | [] => 0
  | x :: xs => xs.foldl max x

/-- The raw, unclamped `vol_percentile` of line 75 of the source. -/
noncomputable def volPercentile (closes : List ℚ) : ℝ :=
  (currentVol closes - listMin (rollingVols closes)) /
    (listMax (rollingVols closes) - listMin (rollingVols closes))

inductive Regime where
  | low
  | normal
  | high
deriving DecidableEq

open Classical in

/-- The regime selection of line 76, with the IEEE-754 outcomes of the
degenerate divisions spelled out (see the section comment). -/
noncomputable def volRegime (closes : List ℚ) : Regime :=
  if rollingVols closes = [] then .normal
  else if listMax (rollingVols closes) - listMin (rollingVols closes) = 0 then
    if currentVol closes - listMin (rollingVols closes) = 0 then .normal
    else if 0 < currentVol closes - listMin (rollingVols closes) then .high
    else .low
  else if 7/10 < volPercentile closes then .high
  else if volPercentile closes < 3/10 then .low
  else .normal

/-- Cumulative closes realizing a prescribed return series. -/
def cumCloses : ℚ → List ℚ → List ℚ
  | c, [] => [c]
  | c, r :: rs => c :: cumCloses (c * (1 + r)) rs

/-- 22 closes whose daily returns are 0, 1, 4, …, 400 (the squares): the
full-series sample variance exceeds the variance of both 20-return
windows. -/
def cex7closes : List ℚ := cumCloses 1 ((List.range 21).map (fun i => ((i : ℚ)) ^ 2))

def rets7 : List ℚ :=
  [0, 1, 4, 9, 16, 25, 36, 49, 64, 81, 100, 121, 144, 169, 196, 225, 256,
   289, 324, 361, 400]

def w7a : List ℚ :=
  [0, 1, 4, 9, 16, 25, 36, 49, 64, 81, 100, 121, 144, 169, 196, 225, 256,
   289, 324, 361]

def w7b : List ℚ :=
  [1, 4, 9, 16, 25, 36, 49, 64, 81, 100, 121, 144, 169, 196, 225, 256,
   289, 324, 361, 400]

/-- 22 closes whose daily returns are 0, 1, 2, …, 20: both 20-return
windows have the same sample variance (an arithmetic progression), while
the full series is strictly more dispersed. -/
def cex8closes : List ℚ := cumCloses 1 ((List.range 21).map (fun i => ((i : ℚ))))

def rets8 : List ℚ :=
  [0, 1, 2, 3, 4, 5, 6, 7, 8, 9, 10, 11, 12, 13, 14, 15, 16, 17, 18, 19, 20]

def w8a : List ℚ :=
  [0, 1, 2, 3, 4, 5, 6, 7, 8, 9, 10, 11, 12, 13, 14, 15, 16, 17, 18, 19]

def w8b : List ℚ :=
  [1, 2, 3, 4, 5, 6, 7, 8, 9, 10, 11, 12, 13, 14, 15, 16, 17, 18, 19, 20]

theorem le_qmin {a b c : ℚ} (h1 : c ≤ a) (h2 : c ≤ b) : c ≤ qmin a b := by
  unfold qmin; split <;> assumption

theorem qmin_le_right (a b : ℚ) : qmin a b ≤ b := by
  unfold qmin; split
  · assumption
  · exact le_refl b

theorem le_qmax_right (a b : ℚ) : b ≤ qmax a b := by
  unfold qmax; split
  · exact le_refl b
  · exact le_of_not_le (by assumption)

/-- C9: for an empty input text stream the aggregate sentiment score is the
explicit neutral default 0, and both the positive and the negative counters
are 0. -/
theorem empty_stream_neutral_default (pol : String → ℚ) :
    analyze_news_sentiment pol [] =
      { score := 0, positiveCount := 0, negativeCount := 0 } := rfl

/-- C1 counterexample: on a concrete `market_data` the code returns the
confidence value 65, which is not expressible as the weighted total
`0.4·technical + 0.3·sentiment + 0.3·volatility` of the claimed Signal
Fusion for any admissible component scores (technical in \{-1,0,1\},
sentiment polarity in [-1,1], volatility score in \{0.5,0,-1,-0.5\});
the code produces a 0–100 percentage and no five-tier verdict label. -/
theorem confidence_score_not_weighted_verdict_cex :
    get_strategy_confidence_score mdEx = 65 ∧
    ∀ t s v : ℚ, (t = -1 ∨ t = 0 ∨ t = 1) → -1 ≤ s → s ≤ 1 →
      (v = 1/2 ∨ v = 0 ∨ v = -1 ∨ v = -1/2) →
      specFusionTotal t s v ≠ get_strategy_confidence_score mdEx := by
  have h : get_strategy_confidence_score mdEx = 65 := by
    norm_num +decide [get_strategy_confidence_score, mdEx, qmin, qmax]
  refine ⟨h, ?_⟩
  intro t s v ht hs1 hs2 hv
  rw [h]
  simp only [specFusionTotal]
  rcases ht with rfl | rfl | rfl <;> rcases hv with rfl | rfl | rfl | rfl <;>
    (intro hEq; linarith)

/-- C1 (amended): `get_strategy_confidence_score` combines the alignment of
the technical (RSI), news-sentiment and analyst-rating signals with the AI
strategy using weights 0.3, 0.4 and 0.3 respectively, maps the weighted sum
`sc` to `(sc + 1) * 50`, and clamps the result to [0, 100].  No volatility
component and no Strong/Moderate verdict label enters the computation. -/
theorem confidence_score_closed_form (md : MarketData)
    (h1 : md.errorOrEmpty = false) (h2 : md.hasAiRec = true) :
    get_strategy_confidence_score md =
      qmin (qmax ((3/10 * techAlign md (md.aiStrategy == some "Bullish")
        + 2/5 * sentAlign md (md.aiStrategy == some "Bullish")
        + 3/10 * anaAlign md (md.aiStrategy == some "Bullish") + 1) * 50) 0) 100 ∧
    0 ≤ get_strategy_confidence_score md ∧ get_strategy_confidence_score md ≤ 100 := by
  simp only [get_strategy_confidence_score, techAlign, sentAlign, anaAlign, h1, h2,
    Bool.not_true, if_false, Bool.false_eq_true]
  refine ⟨?_, ?_, ?_⟩
  · congr 1
    congr 1
    congr 1
    congr 1
    split_ifs <;> ring
  · exact le_qmin (le_qmax_right _ _) (by norm_num)
  · exact qmin_le_right _ _

/-- C1 witness: the amended statement instantiated at `mdEx`. -/
theorem confidence_score_closed_form_witness :
    get_strategy_confidence_score mdEx =
      qmin (qmax ((3/10 * techAlign mdEx (mdEx.aiStrategy == some "Bullish")
        + 2/5 * sentAlign mdEx (mdEx.aiStrategy == some "Bullish")
        + 3/10 * anaAlign mdEx (mdEx.aiStrategy == some "Bullish") + 1) * 50) 0) 100 ∧
    0 ≤ get_strategy_confidence_score mdEx ∧ get_strategy_confidence_score mdEx ≤ 100 :=
  confidence_score_closed_form mdEx (by decide) (by decide)

theorem rat_abs_ite (q : ℚ) : |q| = if 0 ≤ q then q else -q := by
  rcases le_or_lt 0 q with h | h
  · rw [abs_of_nonneg h, if_pos h]
  · rw [abs_of_neg h, if_neg (not_le.mpr h)]

/-- Any strategy in the returned list passed `validate_strike_prices`. -/
theorem mem_analyze_validated (p vol : ℚ) (options : List (ℤ × Chain))
    (s : Strategy) (hs : s ∈ analyze_options_strategy p vol options) :
    validate_strike_prices s p = true ∧
    ∃ e ∈ options, buildStrategy p vol e.1 e.2 = some s := by
  rw [analyze_options_strategy, List.mem_insertionSort, List.mem_filterMap] at hs
  obtain ⟨e, he, hbuild⟩ := hs
  rcases hb : buildStrategy p vol e.1 e.2 with _ | s'
  · rw [hb] at hbuild; exact absurd hbuild (by simp)
  · rw [hb] at hbuild
    have hbuild' : (if validate_strike_prices s' p = true then some s' else none) =
        some s := hbuild
    by_cases hv : validate_strike_prices s' p = true
    · rw [if_pos hv] at hbuild'
      obtain rfl : s' = s := Option.some.inj hbuild'
      exact ⟨hv, e, he, hb⟩
    · rw [if_neg hv] at hbuild'; exact absurd hbuild' (by simp)

/-- Inversion of `buildStrategy`: the branch taken is dictated by the
volatility test, and the risk/reward fields come from the corresponding
spread widths. -/
theorem buildStrategy_inv (p vol : ℚ) (days : ℤ) (chain : Chain) (s : Strategy)
    (h : buildStrategy p vol days chain = some s) :
    (1/5 < vol ∧ ∃ sc bc sp bp, s.setup = .ironCondor sc bc sp bp ∧
        s.maxProfit = round2 (qmin (bc - sc) (sp - bp) * (3/20)) ∧
        s.maxLoss = round2 (qmax (bc - sc) (sp - bp) * (17/20))) ∨
    (¬ 1/5 < vol ∧ ∃ b sl, s.setup = .bullCall b sl ∧
        s.maxProfit = round2 ((sl - b) * (3/5)) ∧
        s.maxLoss = round2 ((sl - b) * (2/5))) := by
  unfold buildStrategy at h
  by_cases hvol : (1:ℚ)/5 < vol
  · rw [if_pos hvol] at h
    left
    refine ⟨hvol, ?_⟩
    rcases h1 : find_nearest_strike chain.calls (p * (102/100)) with _ | sc <;>
      rw [h1] at h <;>
      rcases h2 : find_nearest_strike chain.calls (p * (104/100)) with _ | bc <;>
      rw [h2] at h <;>
      rcases h3 : find_nearest_strike chain.puts (p * (98/100)) with _ | sp <;>
      rw [h3] at h <;>
      rcases h4 : find_nearest_strike chain.puts (p * (96/100)) with _ | bp <;>
      rw [h4] at h <;>
      simp only [reduceCtorEq] at h
    have h' : (if sc ≠ 0 ∧ bc ≠ 0 ∧ sp ≠ 0 ∧ bp ≠ 0 then
        some { daysToExpiry := days, setup := .ironCondor sc bc sp bp,
               maxProfit := round2 (qmin (bc - sc) (sp - bp) * (3/20)),
               maxLoss := round2 (qmax (bc - sc) (sp - bp) * (17/20)) : Strategy }
        else none) = some s := h
    by_cases hg : sc ≠ 0 ∧ bc ≠ 0 ∧ sp ≠ 0 ∧ bp ≠ 0
    · rw [if_pos hg] at h'
      obtain rfl := (Option.some.inj h').symm
      exact ⟨sc, bc, sp, bp, rfl, rfl, rfl⟩
    · rw [if_neg hg] at h'; exact absurd h' (by simp)
  · rw [if_neg hvol] at h
    right
    refine ⟨hvol, ?_⟩
    rcases h1 : find_nearest_strike chain.calls (p * (99/100)) with _ | b <;>
      rw [h1] at h <;>
      rcases h2 : find_nearest_strike chain.calls (p * (102/100)) with _ | sl <;>
      rw [h2] at h <;>
      simp only [reduceCtorEq] at h
    have h' : (if b ≠ 0 ∧ sl ≠ 0 then
        some { daysToExpiry := days, setup := .bullCall b sl,
               maxProfit := round2 ((sl - b) * (3/5)),
               maxLoss := round2 ((sl - b) * (2/5)) : Strategy }
        else none) = some s := h
    by_cases hg : b ≠ 0 ∧ sl ≠ 0
    · rw [if_pos hg] at h'
      obtain rfl := (Option.some.inj h').symm
      exact ⟨b, sl, rfl, rfl, rfl⟩
    · rw [if_neg hg] at h'; exact absurd h' (by simp)

/-- A strategy passing validation satisfies the claimed ordering invariant. -/
theorem validate_imp_invariant (s : Strategy) (p : ℚ)
    (h : validate_strike_prices s p = true) : strikeInvariant p s.setup := by
  rcases hset : s.setup with ⟨sc, bc, sp, bp⟩ | ⟨b, sl⟩ <;>
    unfold validate_strike_prices at h <;> rw [hset] at h <;>
    simp only [Bool.and_eq_true, decide_eq_true_eq] at h <;>
    simp only [strikeInvariant]
  · exact ⟨h.1.1.1, h.1.1.2, h.1.2, h.2⟩
  · exact h.1.1

/-- C3: every strategy in the returned list satisfies its variant's
strike-ordering invariant (Bull Call Spread: buy < sell; Iron Condor:
buy put < sell put < current price < sell call < buy call); candidates
failing `validate_strike_prices` are never returned. -/
theorem returned_strategies_satisfy_strike_invariant (p vol : ℚ)
    (options : List (ℤ × Chain)) (s : Strategy)
    (hs : s ∈ analyze_options_strategy p vol options) :
    strikeInvariant p s.setup :=
  validate_imp_invariant s p (mem_analyze_validated p vol options s hs).1

/-- C10: every returned Bull Call Spread additionally has its buy-call
strike strictly within 10 percent of the current price. -/
theorem bull_call_buy_strike_within_ten_percent (p vol : ℚ)
    (options : List (ℤ × Chain)) (s : Strategy)
    (hs : s ∈ analyze_options_strategy p vol options) (b sl : ℚ)
    (hset : s.setup = .bullCall b sl) :
    |b - p| / p < 1/10 := by
  have hv := (mem_analyze_validated p vol options s hs).1
  unfold validate_strike_prices at hv
  rw [hset] at hv
  simp only [Bool.and_eq_true, decide_eq_true_eq] at hv
  exact hv.2

/-- C2 (amended): the selector never consults a directional label; it
builds an Iron Condor when the annualized volatility exceeds 0.2 and a
Bull Call Spread otherwise, and never builds a Bear Put Spread. -/
theorem spread_variant_by_volatility (p vol : ℚ)
    (options : List (ℤ × Chain)) (s : Strategy)
    (hs : s ∈ analyze_options_strategy p vol options) :
    s.setup.stype = (if 1/5 < vol then StrategyType.ironCondorType
      else StrategyType.bullCallSpread) ∧
    s.setup.stype ≠ StrategyType.bearPutSpread := by
  obtain ⟨-, e, -, hb⟩ := mem_analyze_validated p vol options s hs
  rcases buildStrategy_inv p vol e.1 e.2 s hb with
    ⟨hvol, sc, bc, sp, bp, hset, -, -⟩ | ⟨hvol, b, sl, hset, -, -⟩
  · rw [hset, if_pos hvol]
    exact ⟨rfl, by simp [Setup.stype]⟩
  · rw [hset, if_neg hvol]
    exact ⟨rfl, by simp [Setup.stype]⟩

/-- C4 (amended): for every returned Bull Call Spread (the only two-leg
spread the code builds) the risk/reward split is 60/40 of the strike gap
(rounded to cents), not 80/20. -/
theorem bull_call_risk_split_sixty_forty (p vol : ℚ)
    (options : List (ℤ × Chain)) (s : Strategy)
    (hs : s ∈ analyze_options_strategy p vol options) (b sl : ℚ)
    (hset : s.setup = .bullCall b sl) :
    s.maxProfit = round2 ((sl - b) * (3/5)) ∧
    s.maxLoss = round2 ((sl - b) * (2/5)) := by
  obtain ⟨-, e, -, hb⟩ := mem_analyze_validated p vol options s hs
  rcases buildStrategy_inv p vol e.1 e.2 s hb with
    ⟨-, sc, bc, sp, bp, hset', -, -⟩ | ⟨-, b', sl', hset', hmp, hml⟩
  · rw [hset] at hset'; exact absurd hset' (by simp)
  · rw [hset] at hset'
    injection hset' with hb' hsl'
    subst hb'; subst hsl'
    exact ⟨hmp, hml⟩

/-- C2 counterexample: with annualized volatility 0.3 the analyzer returns
an Iron Condor, a variant that is neither a Bear Put Spread nor a Bull
Call Spread, so the returned variant is not chosen from a directional
label; no fused label even enters `analyze_options_strategy`. -/
theorem spread_variant_volatility_cex :
    analyze_options_strategy 100 (3/10) [(7, chainIC)] = [icEx] ∧
    icEx.setup.stype = StrategyType.ironCondorType ∧
    StrategyType.ironCondorType ≠ StrategyType.bullCallSpread ∧
    StrategyType.ironCondorType ≠ StrategyType.bearPutSpread := by
  refine ⟨?_, rfl, by simp, by simp⟩
  norm_num [rat_abs_ite, analyze_options_strategy, buildStrategy, find_nearest_strike, argminAbsAux,
    validate_strike_prices, round2, qmin, qmax, chainIC, rowOf, icEx, List.filterMap,
    List.insertionSort, List.orderedInsert]

/-- C2 witness: the amended statement instantiated at the Iron Condor run. -/
theorem spread_variant_by_volatility_witness :
    icEx.setup.stype = (if (1:ℚ)/5 < 3/10 then StrategyType.ironCondorType
      else StrategyType.bullCallSpread) ∧
    icEx.setup.stype ≠ StrategyType.bearPutSpread :=
  spread_variant_by_volatility 100 (3/10) [(7, chainIC)] icEx (by
    norm_num [rat_abs_ite, analyze_options_strategy, buildStrategy, find_nearest_strike, argminAbsAux,
      validate_strike_prices, round2, qmin, qmax, chainIC, rowOf, icEx, List.filterMap,
      List.insertionSort, List.orderedInsert])

/-- C3 witness: the strike invariant instantiated at the returned Iron
Condor. -/
theorem returned_strategies_satisfy_strike_invariant_witness :
    strikeInvariant 100 icEx.setup :=
  returned_strategies_satisfy_strike_invariant 100 (3/10) [(7, chainIC)] icEx (by
    norm_num [rat_abs_ite, analyze_options_strategy, buildStrategy, find_nearest_strike, argminAbsAux,
      validate_strike_prices, round2, qmin, qmax, chainIC, rowOf, icEx, List.filterMap,
      List.insertionSort, List.orderedInsert])

/-- C4 counterexample: a returned Bull Call Spread with strike gap 3 has
max_profit 1.8 and max_loss 1.2 — the code's 60/40 split of the gap —
whereas the claimed 80/20 split would give 2.4 and 0.6. -/
theorem risk_split_eighty_twenty_cex :
    analyze_options_strategy 100 (1/10) [(7, chainBull)] = [bullEx] ∧
    bullEx.maxProfit = 9/5 ∧ bullEx.maxLoss = 6/5 ∧
    bullEx.maxProfit ≠ (102 - 99) * (4/5) ∧
    bullEx.maxLoss ≠ (102 - 99) * (1/5) := by
  refine ⟨?_, rfl, rfl, by norm_num [bullEx], by norm_num [bullEx]⟩
  norm_num [rat_abs_ite, analyze_options_strategy, buildStrategy, find_nearest_strike, argminAbsAux,
    validate_strike_prices, round2, qmin, qmax, chainBull, rowOf, bullEx, List.filterMap,
    List.insertionSort, List.orderedInsert]

/-- C4 witness: the amended 60/40 statement instantiated at the returned
Bull Call Spread. -/
theorem bull_call_risk_split_sixty_forty_witness :
    bullEx.maxProfit = round2 ((102 - 99) * (3/5)) ∧
    bullEx.maxLoss = round2 ((102 - 99) * (2/5)) :=
  bull_call_risk_split_sixty_forty 100 (1/10) [(7, chainBull)] bullEx (by
    norm_num [rat_abs_ite, analyze_options_strategy, buildStrategy, find_nearest_strike, argminAbsAux,
      validate_strike_prices, round2, qmin, qmax, chainBull, rowOf, bullEx, List.filterMap,
      List.insertionSort, List.orderedInsert]) 99 102 rfl

/-- C10 witness: the 10-percent proximity bound instantiated at the
returned Bull Call Spread. -/
theorem bull_call_buy_strike_within_ten_percent_witness :
    |(99 : ℚ) - 100| / 100 < 1/10 :=
  bull_call_buy_strike_within_ten_percent 100 (1/10) [(7, chainBull)] bullEx (by
    norm_num [rat_abs_ite, analyze_options_strategy, buildStrategy, find_nearest_strike, argminAbsAux,
      validate_strike_prices, round2, qmin, qmax, chainBull, rowOf, bullEx, List.filterMap,
      List.insertionSort, List.orderedInsert]) 99 102 rfl

/-- C5 counterexample: the analyzer returns a Bull Call Spread with strikes
100 and 102.505, max_profit 1.50 and max_loss 1.00 (the rounded 60/40
split).  The payoff's middle segment evaluates to 1.505 at the sell
strike while every price above the sell strike pays max_profit = 1.50,
so the two adjacent segment formulas do not agree at the sell strike:
the payoff jumps by 0.005 there. -/
theorem payoff_sell_boundary_jump_cex :
    analyze_options_strategy 101 (1/10) [(7, chainFine)] = [bullFine] ∧
    bullCallPayoff 100 (20501/200) (3/2) 1 (20501/200) = 301/200 ∧
    bullCallPayoff 100 (20501/200) (3/2) 1 (20601/200) = 3/2 ∧
    (301/200 : ℚ) ≠ 3/2 := by
  refine ⟨?_, ?_, ?_, by norm_num⟩
  · norm_num [rat_abs_ite, analyze_options_strategy, buildStrategy, find_nearest_strike, argminAbsAux,
      validate_strike_prices, round2, qmin, qmax, chainFine, rowOf, bullFine, List.filterMap,
      List.insertionSort, List.orderedInsert]
  · norm_num [bullCallPayoff]
  · norm_num [bullCallPayoff]

/-- C5 (amended): the code's payoff function agrees pointwise with the
specification's piecewise description, the two adjacent formulas agree
exactly at the buy strike, and they agree at the sell strike precisely
when max_profit + max_loss equals the strike gap — which the rounded
60/40 split guarantees only for cent-aligned gaps. -/
theorem bull_payoff_piecewise_boundaries (b sl mp ml : ℚ) (hbs : b ≤ sl) :
    (∀ price, bullCallPayoff b sl mp ml price = specBullCallPayoff b sl mp ml price) ∧
    bullCallPayoff b sl mp ml b = -ml ∧
    (mp + ml = sl - b → bullCallPayoff b sl mp ml sl = mp) := by
  refine ⟨?_, ?_, ?_⟩
  · intro price
    unfold bullCallPayoff specBullCallPayoff
    rcases lt_trichotomy price b with h | h | h
    · rw [if_pos h.le, if_pos h]
    · subst h
      rw [if_pos (le_refl price), if_neg (lt_irrefl price), if_pos hbs]
      ring
    · rw [if_neg (not_le.mpr h), if_neg (not_lt.mpr h.le)]
  · unfold bullCallPayoff
    rw [if_pos (le_refl b)]
  · intro hsum
    unfold bullCallPayoff
    rcases eq_or_lt_of_le hbs with h | h
    · subst h
      rw [if_pos (le_refl b)]
      linarith
    · rw [if_neg (not_le.mpr h), if_pos (le_refl sl)]
      linarith

/-- C5 witness: the amended statement instantiated at the analyzer's
99/102 spread, whose 1.8/1.2 split does sum to the strike gap 3. -/
theorem bull_payoff_piecewise_boundaries_witness :
    (∀ price, bullCallPayoff 99 102 (9/5) (6/5) price =
      specBullCallPayoff 99 102 (9/5) (6/5) price) ∧
    bullCallPayoff 99 102 (9/5) (6/5) 99 = -(6/5) ∧
    ((9:ℚ)/5 + 6/5 = 102 - 99 → bullCallPayoff 99 102 (9/5) (6/5) 102 = 9/5) :=
  bull_payoff_piecewise_boundaries 99 102 (9/5) (6/5) (by norm_num)

theorem diffs_pos : ∀ (l : List ℚ), List.Chain' (· < ·) l → ∀ d ∈ diffs l, 0 < d
  | [], _, d, hd => by simp [diffs] at hd
  | [_], _, d, hd => by simp [diffs] at hd
  | a :: b :: t, h, d, hd => by
    simp only [diffs, List.mem_cons] at hd
    rcases List.chain'_cons.mp h with ⟨hab, ht⟩
    rcases hd with rfl | hd'
    · linarith
    · exact diffs_pos (b :: t) ht d hd'

theorem diffs_length : ∀ l : List ℚ, (diffs l).length = l.length - 1
  | [] => rfl
  | [_] => rfl
  | a :: b :: t => by
    simp only [diffs, List.length_cons, diffs_length (b :: t)]
    omega

theorem gainSeries_length (l : List ℚ) (h : l ≠ []) :
    (gainSeries l).length = l.length := by
  cases l with
  | nil => exact absurd rfl h
  | cons a t =>
    simp only [gainSeries, List.length_cons, List.length_map, diffs_length]
    omega

theorem lossSeries_length (l : List ℚ) (h : l ≠ []) :
    (lossSeries l).length = l.length := by
  cases l with
  | nil => exact absurd rfl h
  | cons a t =>
    simp only [lossSeries, List.length_cons, List.length_map, diffs_length]
    omega

theorem lossSeries_all_zero (l : List ℚ) (h : List.Chain' (· < ·) l) :
    ∀ x ∈ lossSeries l, x = 0 := by
  cases l with
  | nil => intro x hx; simp [lossSeries] at hx
  | cons a t =>
    intro x hx
    simp only [lossSeries, List.mem_cons, List.mem_map] at hx
    rcases hx with rfl | ⟨d, hd, rfl⟩
    · rfl
    · rw [if_neg (not_lt.mpr (diffs_pos (a :: t) h d hd).le)]

theorem gainSeries_nonneg (l : List ℚ) : ∀ x ∈ gainSeries l, 0 ≤ x := by
  cases l with
  | nil => intro x hx; simp [gainSeries] at hx
  | cons a t =>
    intro x hx
    simp only [gainSeries, List.mem_cons, List.mem_map] at hx
    rcases hx with rfl | ⟨d, hd, rfl⟩
    · exact le_refl 0
    · split
      · exact le_of_lt (by assumption)
      · exact le_refl 0

theorem sum_pos_of_exists (l : List ℚ) (h0 : ∀ x ∈ l, 0 ≤ x)
    (hx : ∃ x ∈ l, 0 < x) : 0 < l.sum := by
  induction l with
  | nil => obtain ⟨x, hxm, -⟩ := hx; exact absurd hxm (List.not_mem_nil x)
  | cons a t ih =>
    obtain ⟨x, hxm, hxpos⟩ := hx
    rw [List.sum_cons]
    rcases List.mem_cons.mp hxm with rfl | hxt
    · have ht : 0 ≤ t.sum := List.sum_nonneg fun y hy => h0 y (List.mem_cons_of_mem _ hy)
      linarith
    · have ha : 0 ≤ a := h0 a (List.mem_cons_self a t)
      have ht : 0 < t.sum := ih (fun y hy => h0 y (List.mem_cons_of_mem _ hy)) ⟨x, hxt, hxpos⟩
      linarith

/-- C6: for a price series of at least 14 closes that strictly increases
each day, the RSI computation hits a loss average of 0, yields exactly 100
(via the float `inf` path), and raises no division-by-zero error. -/
theorem rsi_pure_uptrend_is_100 (closes : List ℚ) (hlen : 14 ≤ closes.length)
    (hmono : List.Chain' (· < ·) closes) : rsiLast closes = some 100 := by
  have hne : closes ≠ [] := by
    intro h; rw [h] at hlen; simp at hlen
  have hgl := gainSeries_length closes hne
  have hll := lossSeries_length closes hne
  have hgain_not : ¬ (gainSeries closes).length < 14 := by omega
  have hloss_not : ¬ (lossSeries closes).length < 14 := by omega
  have hlossval : ((lossSeries closes).drop ((lossSeries closes).length - 14)).sum = 0 :=
    List.sum_eq_zero fun x hx =>
      lossSeries_all_zero closes hmono x (List.mem_of_mem_drop hx)
  have hgainpos :
      0 < ((gainSeries closes).drop ((gainSeries closes).length - 14)).sum := by
    apply sum_pos_of_exists
    · exact fun x hx => gainSeries_nonneg closes x (List.mem_of_mem_drop hx)
    · have hdne : diffs closes ≠ [] := by
        have := diffs_length closes
        intro hd
        rw [hd] at this
        simp at this
        omega
      rcases hd14 : (gainSeries closes).length - 14 with _ | m
      · obtain ⟨d, hdm⟩ := List.exists_mem_of_ne_nil (diffs closes) hdne
        have hdp := diffs_pos closes hmono d hdm
        refine ⟨d, ?_, hdp⟩
        rw [List.drop_zero]
        cases closes with
        | nil => exact absurd rfl hne
        | cons a t =>
          simp only [gainSeries, List.mem_cons, List.mem_map]
          refine Or.inr ⟨d, hdm, ?_⟩
          rw [if_pos hdp]
      · cases hc : closes with
        | nil => exact absurd hc hne
        | cons a t =>
          rw [← hc]
          have hgdef : gainSeries closes =
              0 :: (diffs closes).map (fun d => if 0 < d then d else 0) := by
            rw [hc]; rfl
          rw [hgdef, List.drop_succ_cons]
          have hmlen : ((diffs closes).map (fun d => if 0 < d then d else 0)).length = closes.length - 1 := by
            rw [List.length_map, diffs_length]
          have hdroplen :
              0 < (((diffs closes).map (fun d => if 0 < d then d else 0)).drop m).length := by
            rw [List.length_drop, hmlen]
            rw [hgdef] at hd14
            simp only [List.length_cons, hmlen] at hd14
            omega
          obtain ⟨x, hxm⟩ :=
            List.exists_mem_of_ne_nil _ (List.ne_nil_of_length_pos hdroplen)
          refine ⟨x, hxm, ?_⟩
          have hxmap := List.mem_of_mem_drop hxm
          obtain ⟨d, hdm, rfl⟩ := List.mem_map.mp hxmap
          have hdp := diffs_pos closes hmono d hdm
          rw [if_pos hdp]
          exact hdp
  rw [rsiLast, lastWindowMean, lastWindowMean, if_neg hgain_not, if_neg hloss_not]
  simp only [hlossval, zero_div, if_true]
  rw [if_neg (div_pos hgainpos (by norm_num)).ne']

/-- C6 witness: fourteen strictly increasing closes give RSI exactly 100. -/
theorem rsi_pure_uptrend_is_100_witness :
    rsiLast [1, 2, 3, 4, 5, 6, 7, 8, 9, 10, 11, 12, 13, 14] = some 100 :=
  rsi_pure_uptrend_is_100 [1, 2, 3, 4, 5, 6, 7, 8, 9, 10, 11, 12, 13, 14]
    (by simp) (by norm_num [List.chain'_cons, List.chain'_singleton])

theorem annVol_lt_annVol (a b : List ℚ) (h0 : 0 ≤ sampleVar a)
    (h : sampleVar a < sampleVar b) : annVol a < annVol b := by
  unfold annVol
  have h252 : (0:ℝ) < Real.sqrt 252 := Real.sqrt_pos.mpr (by norm_num)
  apply mul_lt_mul_of_pos_right _ h252
  exact Real.sqrt_lt_sqrt (by exact_mod_cast h0) (by exact_mod_cast h)

theorem annVol_congr (a b : List ℚ) (h : sampleVar a = sampleVar b) :
    annVol a = annVol b := by
  unfold annVol; rw [h]

theorem annVol_zero (l : List ℚ) (h : sampleVar l = 0) : annVol l = 0 := by
  unfold annVol
  rw [h]
  norm_num

theorem cex7_pct : pctChange cex7closes = rets7 := by
  norm_num [cex7closes, cumCloses, pctChange, rets7, List.range_succ]

theorem cex7_windows : windows20 (pctChange cex7closes) = [w7a, w7b] := by
  rw [cex7_pct]
  norm_num [windows20, rets7, w7a, w7b, List.range_succ]

theorem cex7_rolling : rollingVols cex7closes = [annVol w7a, annVol w7b] := by
  unfold rollingVols
  rw [cex7_windows]
  rfl

theorem cex7_var_ab : sampleVar w7a < sampleVar w7b := by
  norm_num [sampleVar, w7a, w7b]

theorem cex7_var_bc : sampleVar w7b < sampleVar rets7 := by
  norm_num [sampleVar, w7b, rets7]

theorem cex7_var_a_nonneg : 0 ≤ sampleVar w7a := by
  norm_num [sampleVar, w7a]

theorem cex7_var_b_nonneg : 0 ≤ sampleVar w7b := by
  norm_num [sampleVar, w7b]

theorem cex7_cur : currentVol cex7closes = annVol rets7 := by
  unfold currentVol
  rw [cex7_pct]

theorem cex7_percentile_gt_one : 1 < volPercentile cex7closes := by
  have h1 : annVol w7a < annVol w7b := annVol_lt_annVol _ _ cex7_var_a_nonneg cex7_var_ab
  have h2 : annVol w7b < annVol rets7 := annVol_lt_annVol _ _ cex7_var_b_nonneg cex7_var_bc
  unfold volPercentile
  rw [cex7_rolling, cex7_cur]
  simp only [listMin, listMax, List.foldl_cons, List.foldl_nil]
  rw [min_eq_left h1.le, max_eq_right h1.le]
  rw [one_lt_div (sub_pos.mpr h1)]
  linarith

theorem cex7_regime_high : volRegime cex7closes = Regime.high := by
  have h1 : annVol w7a < annVol w7b := annVol_lt_annVol _ _ cex7_var_a_nonneg cex7_var_ab
  have hperc := cex7_percentile_gt_one
  unfold volRegime
  rw [cex7_rolling]
  rw [if_neg (by simp : ¬ ([annVol w7a, annVol w7b] : List ℝ) = [])]
  have hmm : listMax [annVol w7a, annVol w7b] - listMin [annVol w7a, annVol w7b] ≠ 0 := by
    simp only [listMin, listMax, List.foldl_cons, List.foldl_nil]
    rw [min_eq_left h1.le, max_eq_right h1.le]
    exact (sub_pos.mpr h1).ne'
  rw [if_neg hmm]
  rw [if_pos (lt_trans (by norm_num) hperc)]

/-- C7 counterexample: on a concrete 22-close series the raw volatility
percentile exceeds 1 — it is not clamped to [0,1] — and the classifier
consumes that out-of-range value, returning High Volatility. -/
theorem vol_percentile_unclamped_cex :
    1 < volPercentile cex7closes ∧ volRegime cex7closes = Regime.high :=
  ⟨cex7_percentile_gt_one, cex7_regime_high⟩

/-- C7 (amended): the percentile is passed to the regime classification
unclamped; whenever the raw value exceeds 1 (hence lies outside [0,1]),
the classifier still sees it and returns High Volatility. -/
theorem raw_percentile_above_one_gives_high (closes : List ℚ)
    (h : 1 < volPercentile closes) : volRegime closes = Regime.high := by
  unfold volRegime
  rcases hr : rollingVols closes with _ | ⟨v, vs⟩
  · exfalso
    unfold volPercentile at h
    rw [hr] at h
    simp only [listMin, listMax] at h
    norm_num at h
  · rw [if_neg (by simp : ¬ (v :: vs : List ℝ) = [])]
    by_cases hd : listMax (v :: vs) - listMin (v :: vs) = 0
    · exfalso
      unfold volPercentile at h
      rw [hr, hd, div_zero] at h
      norm_num at h
    · rw [if_neg hd]
      rw [if_pos (lt_trans (by norm_num) h : (7:ℝ)/10 < volPercentile closes)]

/-- C7 witness: the amended statement at the concrete 22-close series. -/
theorem raw_percentile_above_one_gives_high_witness :
    volRegime cex7closes = Regime.high :=
  raw_percentile_above_one_gives_high cex7closes cex7_percentile_gt_one

theorem pctChange_flat (c : ℚ) (hc : c ≠ 0) :
    ∀ (l : List ℚ), (∀ x ∈ l, x = c) → ∀ r ∈ pctChange l, r = 0
  | [], _, r, hr => by simp [pctChange] at hr
  | [_], _, r, hr => by simp [pctChange] at hr
  | a :: b :: t, hall, r, hr => by
    simp only [pctChange, List.mem_cons] at hr
    have ha : a = c := hall a (List.mem_cons_self a (b :: t))
    have hb : b = c := hall b (List.mem_cons_of_mem a (List.mem_cons_self b t))
    rcases hr with rfl | hr'
    · rw [ha, hb, div_self hc]; ring
    · exact pctChange_flat c hc (b :: t)
        (fun x hx => hall x (List.mem_cons_of_mem a hx)) r hr'

theorem sampleVar_zeros (l : List ℚ) (h : ∀ x ∈ l, x = 0) : sampleVar l = 0 := by
  have hsum : l.sum = 0 := List.sum_eq_zero h
  unfold sampleVar
  rw [hsum, zero_div]
  have hmap : (l.map fun x => (x - 0) ^ 2).sum = 0 := by
    apply List.sum_eq_zero
    intro y hy
    obtain ⟨x, hx, rfl⟩ := List.mem_map.mp hy
    rw [h x hx]
    norm_num
  rw [hmap, zero_div]

theorem foldl_min_zero : ∀ (xs : List ℝ), (∀ x ∈ xs, x = 0) → xs.foldl min 0 = 0
  | [], _ => rfl
  | x :: xs, h => by
    have hx : x = 0 := h x (List.mem_cons_self x xs)
    rw [List.foldl_cons, hx, min_self]
    exact foldl_min_zero xs fun y hy => h y (List.mem_cons_of_mem _ hy)

theorem foldl_max_zero : ∀ (xs : List ℝ), (∀ x ∈ xs, x = 0) → xs.foldl max 0 = 0
  | [], _ => rfl
  | x :: xs, h => by
    have hx : x = 0 := h x (List.mem_cons_self x xs)
    rw [List.foldl_cons, hx, max_self]
    exact foldl_max_zero xs fun y hy => h y (List.mem_cons_of_mem _ hy)

theorem rollingVols_flat_zero (closes : List ℚ) (c : ℚ) (hc : c ≠ 0)
    (hflat : ∀ x ∈ closes, x = c) : ∀ v ∈ rollingVols closes, v = 0 := by
  intro v hv
  unfold rollingVols at hv
  obtain ⟨w, hw, rfl⟩ := List.mem_map.mp hv
  apply annVol_zero
  apply sampleVar_zeros
  intro x hx
  unfold windows20 at hw
  obtain ⟨i, -, rfl⟩ := List.mem_map.mp hw
  exact pctChange_flat c hc closes hflat x
    (List.mem_of_mem_drop (List.mem_of_mem_take hx))

/-- C8 (amended): on a flat price series (every close equal to the same
nonzero price) the current and all rolling volatilities are 0; the
percentile is the float NaN (0/0), both regime comparisons are False, and
the classifier returns Normal without raising a division error.  (The
unqualified claim — Normal whenever rolling max equals rolling min — fails
when the current volatility differs from the common rolling value, see the
counterexample.) -/
theorem flat_series_regime_normal (c : ℚ) (closes : List ℚ) (hc : c ≠ 0)
    (hflat : ∀ x ∈ closes, x = c) : volRegime closes = Regime.normal := by
  have hz : ∀ r ∈ pctChange closes, r = 0 := pctChange_flat c hc closes hflat
  have hcv : currentVol closes = 0 := annVol_zero _ (sampleVar_zeros _ hz)
  have hvols := rollingVols_flat_zero closes c hc hflat
  unfold volRegime
  rcases hr : rollingVols closes with _ | ⟨v, vs⟩
  · rw [if_pos rfl]
  · have hv0 : v = 0 := hvols v (hr ▸ List.mem_cons_self v vs)
    have hvs0 : ∀ x ∈ vs, x = 0 := fun x hx =>
      hvols x (hr ▸ List.mem_cons_of_mem v hx)
    have hmin : listMin (v :: vs) = 0 := by
      simp only [listMin]
      rw [hv0]
      exact foldl_min_zero vs hvs0
    have hmax : listMax (v :: vs) = 0 := by
      simp only [listMax]
      rw [hv0]
      exact foldl_max_zero vs hvs0
    rw [if_neg (by simp : ¬ (v :: vs : List ℝ) = [])]
    rw [hmin, hmax, hcv]
    norm_num

/-- C8 witness: 21 equal closes (one complete rolling window) classify as
Normal. -/
theorem flat_series_regime_normal_witness :
    volRegime [1, 1, 1, 1, 1, 1, 1, 1, 1, 1, 1, 1, 1, 1, 1, 1, 1, 1, 1, 1, 1]
      = Regime.normal :=
  flat_series_regime_normal 1
    [1, 1, 1, 1, 1, 1, 1, 1, 1, 1, 1, 1, 1, 1, 1, 1, 1, 1, 1, 1, 1]
    (by norm_num) (by decide)

theorem cex8_pct : pctChange cex8closes = rets8 := by
  norm_num [cex8closes, cumCloses, pctChange, rets8, List.range_succ]

theorem cex8_windows : windows20 (pctChange cex8closes) = [w8a, w8b] := by
  rw [cex8_pct]
  norm_num [windows20, rets8, w8a, w8b, List.range_succ]

theorem cex8_rolling : rollingVols cex8closes = [annVol w8a, annVol w8b] := by
  unfold rollingVols
  rw [cex8_windows]
  rfl

theorem cex8_var_eq : sampleVar w8a = sampleVar w8b := by
  norm_num [sampleVar, w8a, w8b]

theorem cex8_var_lt : sampleVar w8a < sampleVar rets8 := by
  norm_num [sampleVar, w8a, rets8]

theorem cex8_var_nonneg : 0 ≤ sampleVar w8a := by
  norm_num [sampleVar, w8a]

theorem cex8_cur : currentVol cex8closes = annVol rets8 := by
  unfold currentVol
  rw [cex8_pct]

/-- C8 counterexample: a 22-close series whose two complete rolling
windows have exactly equal volatility (rolling max = rolling min) while
the full-series volatility is strictly larger: the float division gives
+inf, not NaN, and the classifier returns High Volatility, not Normal. -/
theorem degenerate_rolling_range_high_cex :
    listMax (rollingVols cex8closes) = listMin (rollingVols cex8closes) ∧
    volRegime cex8closes = Regime.high ∧ Regime.high ≠ Regime.normal := by
  have heq : annVol w8a = annVol w8b := annVol_congr _ _ cex8_var_eq
  have hlt : annVol w8a < annVol rets8 :=
    annVol_lt_annVol _ _ cex8_var_nonneg cex8_var_lt
  have hminmax : listMax (rollingVols cex8closes) = annVol w8a ∧
      listMin (rollingVols cex8closes) = annVol w8a := by
    rw [cex8_rolling]
    simp only [listMin, listMax, List.foldl_cons, List.foldl_nil]
    rw [← heq]
    exact ⟨max_self _, min_self _⟩
  refine ⟨by rw [hminmax.1, hminmax.2], ?_, by simp⟩
  unfold volRegime
  rw [cex8_rolling]
  rw [if_neg (by simp : ¬ ([annVol w8a, annVol w8b] : List ℝ) = [])]
  rw [← cex8_rolling, hminmax.1, hminmax.2, cex8_cur]
  rw [if_pos (by ring)]
  rw [if_neg (sub_ne_zero.mpr hlt.ne'), if_pos (sub_pos.mpr hlt)]

end IWM

